import Mathlib

/-!
Shallow embedding of `src/docsearch/server.py` (AllenComm/mcp-docsearch):
the document section model, the range mini-language parser
(`parse_numeric_range`, the sheet-selector parse loop), the section filter
(`filter_sections`), and the read/grep engines (`docread`, `docgrep`).

Python strings are modelled as Lean `String` handled character-wise
(`len`, slicing and `split` count characters, as in Python); Python
`set[int]` is modelled as a strictly sorted duplicate-free `List Int` (the
canonical representation of a finite set of integers) and `set[str]` as a
duplicate-free `List String`; Python exceptions are modelled by
`Option`/`Except` results.  Helper functions (`pyStrip`,
`pySplit`, `pyInt?`, ...) reproduce the Python builtins used by the code;
they are written with structural recursion so that every definition
evaluates inside the kernel.
-/

namespace DocSearch

/-- A document section `(label, text)`: the extractors in server.py return
`list[tuple[str, str]]`. -/
abbrev Section := String × String

/-- ASCII whitespace, as recognised by Python `str.strip()` / `int()`. -/
def pyIsSpace (c : Char) : Bool :=
  c = ' ' || c = '\t' || c = '\n' || c = '\r' || c = '\x0b' || c = '\x0c'

/-- Python `str.strip()` (whitespace at both ends). -/
def pyStrip (s : String) : String :=
  String.mk (((s.toList.dropWhile pyIsSpace).reverse.dropWhile pyIsSpace).reverse)

/-- A one-character string holding a single quote (the decoration of sheet
labels: `f"sheet '{name}'"`). -/
def sq : String := String.mk ['\'']

/-- The characters stripped by `.strip("'\"")` in the sheet-range parser. -/
def isQuoteChar (c : Char) : Bool := c = '\'' || c = '"'

/-- Python `str.strip("'\"")`. -/
def pyStripQuotes (s : String) : String :=
  String.mk (((s.toList.dropWhile isQuoteChar).reverse.dropWhile isQuoteChar).reverse)

/-- Numeric value of an ASCII digit. -/
def digitVal (c : Char) : Nat := c.toNat - 48

/-- Digit run accepted by Python `int()` after the first digit: further
digits, with `_` allowed only between digits. -/
def pyDigits : Nat → List Char → Option Nat
  | acc, [] => some acc
  | acc, '_' :: c :: cs => if c.isDigit then pyDigits (10 * acc + digitVal c) cs else none
  | _, ['_'] => none
  | acc, c :: cs => if c.isDigit then pyDigits (10 * acc + digitVal c) cs else none

/-- A full digit run for Python `int()`: nonempty, starts with a digit. -/
def pyIntDigits : List Char → Option Nat
  | [] => none
  | c :: cs => if c.isDigit then pyDigits (digitVal c) cs else none

/-- Python `int(s)`: surrounding whitespace stripped, optional sign, digit
run; `none` models the `ValueError` raised on anything else. -/
def pyInt? (s : String) : Option Int :=
  match (pyStrip s).toList with
  | '+' :: cs => (pyIntDigits cs).map (fun n => (n : Int))
  | '-' :: cs => (pyIntDigits cs).map (fun n => -(n : Int))
  | cs => (pyIntDigits cs).map (fun n => (n : Int))

/-- Python `range(a, b)` as an explicit list: `a, a+1, ..., b-1`, empty
when `b ≤ a`. -/
def pyRange (a b : Int) : List Int := (List.range (b - a).toNat).map (fun i => a + i)

/-- Characters of `s` before the first occurrence of `c` (first half of
Python `s.split(c, 1)`). -/
def beforeChar (s : String) (c : Char) : String :=
  String.mk (s.toList.takeWhile (fun x => decide (x ≠ c)))

/-- Characters of `s` after the first occurrence of `c` (second half of
Python `s.split(c, 1)`). -/
def afterChar (s : String) (c : Char) : String :=
  String.mk ((s.toList.dropWhile (fun x => decide (x ≠ c))).drop 1)

/-- Worker for `pySplit`. -/
def splitCharAux (sep : Char) : List Char → List (List Char)
  | [] => [[]]
  | c :: cs =>
    if c = sep then [] :: splitCharAux sep cs
    else
      match splitCharAux sep cs with
      | [] => [[c]]
      | g :: gs => (c :: g) :: gs

/-- Python `str.split(sep)` for a one-character separator: `"".split` is
`[""]`, separators at the ends produce empty fields. -/
def pySplit (s : String) (sep : Char) : List String := (splitCharAux sep s.toList).map String.mk

/-- Python `sep.join(items)`. -/
def joinSep (sep : String) : List String → String
  | [] => ""
  | [x] => x
  | x :: xs => x ++ sep ++ joinSep sep xs

/-- Insert into a set of integers held in its canonical form, a strictly
sorted duplicate-free list (Python `set.add`). -/
def sinsert (x : Int) : List Int → List Int
  | [] => [x]
  | y :: ys => if x < y then x :: y :: ys else if x = y then y :: ys else y :: sinsert x ys

/-- Add every element of a list to a set of integers (Python
`set.update(iterable)` / `set |= ...`). -/
def sunion (base : List Int) (adds : List Int) : List Int :=
  adds.foldl (fun a n => sinsert n a) base

/-- Add to a set of strings, modelled as a duplicate-free list (Python
`set.add` on `names`). -/
def minsert (x : String) (l : List String) : List String :=
  if x ∈ l then l else l ++ [x]

/-- One comma-separated token of `parse_numeric_range` (server.py 184-190),
folded over the accumulated set: a token containing `-` is split at the
first `-` and contributes `range(int(start), int(end)+1)`; otherwise the
token contributes its single integer.  `none` models the `ValueError`
raised when `int` fails. -/
def parseStep (acc : Option (List Int)) (part0 : String) : Option (List Int) :=
  match acc with
  | none => none
  | some nums =>
    let part := pyStrip part0
    if '-' ∈ part.toList then
      match pyInt? (beforeChar part '-'), pyInt? (afterChar part '-') with
      | some a, some b => some (sunion nums (pyRange a (b + 1)))
      | _, _ => none
    else
      match pyInt? part with
      | some n => some (sinsert n nums)
      | none => none

/-- `parse_numeric_range` (server.py 182-191).  The returned Python
`set[int]` is represented canonically as a strictly sorted duplicate-free
list. -/
def parse_numeric_range (s : String) : Option (List Int) :=
  (pySplit s ',').foldl parseStep (some [])

/-- The contribution of a single token of `parse_numeric_range`, as a list
of integers (used to reason about `parseStep`). -/
def tokenSet? (part0 : String) : Option (List Int) :=
  let part := pyStrip part0
  if '-' ∈ part.toList then
    match pyInt? (beforeChar part '-'), pyInt? (afterChar part '-') with
    | some a, some b => some (pyRange a (b + 1))
    | _, _ => none
  else
    match pyInt? part with
    | some n => some [n]
    | none => none

/-- The trailing run of ASCII digits of a character list. -/
def trailingDigits (cs : List Char) : List Char := (cs.reverse.takeWhile Char.isDigit).reverse

/-- Value of a digit run. -/
def digitsToNat (cs : List Char) : Nat := cs.foldl (fun a c => 10 * a + digitVal c) 0

/-- The trailing run of digits at the end of a label, read as an integer
(`none` when the label does not end in a digit). -/
def trailingNumber (label : String) : Option Int :=
  let ds := trailingDigits label.toList
  if ds.isEmpty then none else some ((digitsToNat ds : Nat) : Int)

/-- `extract_section_number` (server.py 194-196), i.e.
`re.match(r".*?(\d+)$", label)`: `$` matches at the end of the string or
just before one final newline, and `.` does not match a newline, so the
match succeeds exactly when the label (with at most one final newline
removed) contains no newline and ends in a digit; the group is the
trailing digit run. -/
def extract_section_number (label : String) : Option Int :=
  let cs := label.toList
  let base := if cs.getLast? = some '\n' then cs.dropLast else cs
  if '\n' ∈ base then none
  else
    let ds := trailingDigits base
    if ds.isEmpty then none else some ((digitsToNat ds : Nat) : Int)

/-- Insert into a `≤`-sorted list of integers, keeping duplicates. -/
def insortI (x : Int) : List Int → List Int
  | [] => [x]
  | y :: ys => if x ≤ y then x :: y :: ys else y :: insortI x ys

/-- Insertion sort on integers: Python `sorted(iterable_of_ints)`. -/
def sortInts (l : List Int) : List Int := l.foldr insortI []

/-- Python `min(set_of_ints)`; `none` models the `ValueError` raised on an
empty set. -/
def setMin? (s : List Int) : Option Int := (sortInts s).head?

/-- Python `max(set_of_ints)`; `none` models the `ValueError` raised on an
empty set. -/
def setMax? (s : List Int) : Option Int := (sortInts s).getLast?

/-- The list comprehension
`[lines[j - 1] for j in sorted(range_set) if 1 <= j <= len(lines)]`
(server.py 205 and 237). -/
def selectLines (rset : List Int) (lines : List String) : List String :=
  ((sortInts rset).filter (fun j => decide (1 ≤ j ∧ j ≤ (lines.length : Int)))).map
    (fun j => lines.getD (j - 1).toNat "")

/-- `f"{label} lines {lo}-{hi}"`. -/
def lineLabel (label : String) (lo hi : Int) : String :=
  label ++ " lines " ++ toString lo ++ "-" ++ toString hi

/-- The loop of the line-addressed branch of `filter_sections`
(server.py 202-208). -/
def lineFilterLoop (rset : List Int) : List Section → List Section → Option (List Section)
  | [], acc => some acc
  | (label, text) :: rest, acc =>
    let selected := selectLines rset (pySplit text '\n')
    if selected.isEmpty then lineFilterLoop rset rest acc
    else
      match setMin? rset, setMax? rset with
      | some lo, some hi =>
        lineFilterLoop rset rest (acc ++ [(lineLabel label lo hi, joinSep "\n" selected)])
      | _, _ => none

/-- The line-addressed branch of `filter_sections` (server.py 200-209). -/
def filterLineAddressed (rset : List Int) (secs : List Section) : Option (List Section) :=
  lineFilterLoop rset secs []

/-- The parsed sheet selector: accumulated literal names, accumulated
1-based indices, and the (at most one) nested row range. -/
structure SheetSpec where
  names : List String
  indices : List Int
  rowRange : Option (List Int)

/-- Classification of one sheet token after colon handling
(server.py 221-230): try `int(part)`; on failure a token without `-` is a
literal name; a token with `-` is tried as a numeric range and falls back
to a literal name. -/
def classifyToken (part : String) (names : List String) (indices : List Int) :
    List String × List Int :=
  match pyInt? part with
  | some n => (names, sinsert n indices)
  | none =>
    if '-' ∈ part.toList then
      match parse_numeric_range part with
      | some r => (names, sunion indices r)
      | none => (minsert part names, indices)
    else (minsert part names, indices)

/-- The token loop of the sheet-addressed branch (server.py 215-230): each
token is stripped of whitespace and quotes; a token containing `:` is split
there, the right half parsed as the row range (failure propagates) with the
last such range winning. -/
def sheetRangeLoop :
    List String → List String → List Int → Option (List Int) → Option SheetSpec
  | [], names, indices, rowRange => some ⟨names, indices, rowRange⟩
  | part0 :: rest, names, indices, rowRange =>
    let part1 := pyStripQuotes (pyStrip part0)
    if ':' ∈ part1.toList then
      match parse_numeric_range (afterChar part1 ':') with
      | none => none
      | some rr =>
        let ni := classifyToken (beforeChar part1 ':') names indices
        sheetRangeLoop rest ni.1 ni.2 (some rr)
    else
      let ni := classifyToken part1 names indices
      sheetRangeLoop rest ni.1 ni.2 rowRange

/-- The sheet-selector parse (server.py 212-230). -/
def parseSheetRange (s : String) : Option SheetSpec :=
  sheetRangeLoop (pySplit s ',') [] [] none

/-- Python `str.startswith(p)`. -/
def strStarts (s p : String) : Bool := p.toList.isPrefixOf s.toList

/-- Python `str.removeprefix(p)`. -/
def dropPre (s p : String) : String :=
  if strStarts s p then String.mk (s.toList.drop p.toList.length) else s

/-- Python `str.removesuffix(p)`. -/
def dropSuf (s p : String) : String :=
  if p.toList.reverse.isPrefixOf s.toList.reverse then
    String.mk (s.toList.take (s.toList.length - p.toList.length))
  else s

/-- `label.removeprefix("sheet '").removesuffix("'")` (server.py 233). -/
def stripSheetName (label : String) : String :=
  dropSuf (dropPre label ("sheet " ++ sq)) sq

/-- `f"{label} rows {lo}-{hi}"`. -/
def rowLabel (label : String) (lo hi : Int) : String :=
  label ++ " rows " ++ toString lo ++ "-" ++ toString hi

/-- The selection loop of the sheet-addressed branch (server.py 232-241),
carrying the 1-based position `i` of `enumerate(sections, 1)`.  When a row
range is present the selected sheet is appended unconditionally — even with
zero surviving rows — relabelled with the requested row bounds; `min`/`max`
of an empty row range raise (`none`). -/
def sheetFilterLoop (spec : SheetSpec) : Nat → List Section → List Section → Option (List Section)
  | _, [], acc => some acc
  | i, (label, text) :: rest, acc =>
    if (i : Int) ∈ spec.indices ∨ stripSheetName label ∈ spec.names then
      match spec.rowRange with
      | some rr =>
        let selected := selectLines rr (pySplit text '\n')
        match setMin? rr, setMax? rr with
        | some lo, some hi =>
          sheetFilterLoop spec (i + 1) rest (acc ++ [(rowLabel label lo hi, joinSep "\n" selected)])
        | _, _ => none
      | none => sheetFilterLoop spec (i + 1) rest (acc ++ [(label, text)])
    else sheetFilterLoop spec (i + 1) rest acc

/-- The sheet-addressed branch of `filter_sections` (server.py 211-242). -/
def filterSheetAddressed (spec : SheetSpec) (secs : List Section) : Option (List Section) :=
  sheetFilterLoop spec 1 secs []

/-- The numbered-label branch of `filter_sections` (server.py 244-245):
`[(l, t) for l, t in sections if extract_section_number(l) in indices]`
(a `None` section number is never a member of a set of ints). -/
def filterNumbered (idxs : List Int) (secs : List Section) : List Section :=
  secs.filter (fun s =>
    match extract_section_number s.1 with
    | some n => decide (n ∈ idxs)
    | none => false)

/-- The extensions of the line-addressed format category. -/
def lineExts : List String := [".docx", ".odt", ".rtf"]

/-- The extensions of the sheet-addressed format category. -/
def sheetExts : List String := [".xlsx", ".ods"]

/-- `filter_sections` (server.py 199-245).  The returned warning is always
`none`; `none` overall models a propagated `ValueError`. -/
def filter_sections (sections : List Section) (range_str : String) (ext : String) :
    Option (Option String × List Section) :=
  if ext ∈ lineExts then
    match parse_numeric_range range_str with
    | none => none
    | some r =>
      match filterLineAddressed r sections with
      | none => none
      | some f => some (none, f)
  else if ext ∈ sheetExts then
    match parseSheetRange range_str with
    | none => none
    | some spec =>
      match filterSheetAddressed spec sections with
      | none => none
      | some f => some (none, f)
  else
    match parse_numeric_range range_str with
    | none => none
    | some idxs => some (none, filterNumbered idxs sections)

/-- `MAX_OUTPUT_CHARS` (server.py 18). -/
def MAX_OUTPUT_CHARS : Nat := 40000

/-- The fixed truncation suffix of `docread` (server.py 339). -/
def truncNotice : String :=
  "\n\n... output truncated at 40000 chars. Use range to narrow results."

/-- Python `s[:n]` (first `n` characters). -/
def strTake (s : String) (n : Nat) : String := String.mk (s.toList.take n)

/-- Python `s[n:]`. -/
def strDrop (s : String) (n : Nat) : String := String.mk (s.toList.drop n)

/-- The output cap of `docread` (server.py 338-339). -/
def capOutput (s : String) : String :=
  if MAX_OUTPUT_CHARS < s.length then strTake s MAX_OUTPUT_CHARS ++ truncNotice else s

/-- The output assembly of `docread` (server.py 332-337): the optional
warning line (skipped when falsy) then `f"=== {label} ===\n{text}\n"` per
section, joined with `"\n"`. -/
def renderSections (warning : Option String) (secs : List Section) : String :=
  let head :=
    match warning with
    | some w => if w = "" then [] else [w ++ "\n"]
    | none => []
  joinSep "\n" (head ++ secs.map (fun s => "=== " ++ s.1 ++ " ===\n" ++ s.2 ++ "\n"))

/-- `docread` (server.py 304-340) after extraction: `sections` is the
extractor output for the file, `rangeArg` the optional `range` argument
(a falsy empty string skips filtering), `ext` the lowercased suffix.
`none` models a propagated exception from range parsing/filtering. -/
def docread (sections : List Section) (rangeArg : Option String) (ext : String) :
    Option String :=
  match
    (match rangeArg with
     | some r => if r = "" then some ((none : Option String), sections) else filter_sections sections r ext
     | none => some ((none : Option String), sections)) with
  | none => none
  | some (warning, secs) =>
    if secs.isEmpty then some "No text content found."
    else some (capOutput (renderSections warning secs))

/-- One filesystem entry seen by the `docgrep` walk, in the globally sorted
enumeration order of `sorted(root.rglob("*"))`: its path components
relative to the search root, whether it is a regular file, its extension
(`Path.suffix`), and the outcome of `extract_text` on it (the extractors
are external collaborators, so the outcome is part of the entry). -/
structure FileEntry where
  relParts : List String
  isFile : Bool
  ext : String
  content : Except String (List Section)

/-- `filepath.relative_to(root)` rendered as a string. -/
def relOf (f : FileEntry) : String := joinSep "/" f.relParts

/-- Python `str.lower()` (ASCII). -/
def pyLower (s : String) : String := String.mk (s.toList.map Char.toLower)

/-- Python `part.startswith(".")`. -/
def startsWithDot (p : String) : Bool :=
  match p.toList with
  | [] => false
  | c :: _ => c = '.'

/-- `any(part.startswith(".") for part in filepath.relative_to(root).parts)`
(server.py 279). -/
def isHidden (f : FileEntry) : Bool := f.relParts.any startsWithDot

/-- Python `str.splitlines()` for `\n`-separated text: no trailing empty
line for a final newline, empty list for the empty string. -/
def pySplitLines (s : String) : List String :=
  if s.toList.isEmpty then []
  else
    let parts := pySplit s '\n'
    if s.toList.getLast? = some '\n' then parts.dropLast else parts

/-- `f"{rel}:{section_label}:{line.strip()}"` (server.py 297). -/
def matchLine (rel label line : String) : String := rel ++ ":" ++ label ++ ":" ++ pyStrip line

/-- The line loop of `docgrep` (server.py 292-297): stop as soon as the
result count has reached the cap, append one match line per line the
pattern matches. -/
def scanLines (search : String → Bool) (maxR : Nat) (rel label : String) :
    List String → List String → List String
  | [], acc => acc
  | line :: rest, acc =>
    if maxR ≤ acc.length then acc
    else if search line then scanLines search maxR rel label rest (acc ++ [matchLine rel label line])
    else scanLines search maxR rel label rest acc

/-- The section loop of `docgrep` (server.py 289-297). -/
def scanSections (search : String → Bool) (maxR : Nat) (rel : String) :
    List Section → List String → List String
  | [], acc => acc
  | (label, text) :: rest, acc =>
    if maxR ≤ acc.length then acc
    else scanSections search maxR rel rest (scanLines search maxR rel label (pySplitLines text) acc)

/-- The file walk of `docgrep` (server.py 271-297): per entry, stop at the
cap, skip non-files, skip disallowed extensions, skip hidden paths; an
extraction failure appends one error line and the walk continues, a
success scans the sections.  `search` abstracts the compiled regex,
`allowed` the resolved extension allow-list. -/
def docgrepLoop (search : String → Bool) (maxR : Nat) (allowed : String → Bool) :
    List FileEntry → List String → List String
  | [], acc => acc
  | f :: rest, acc =>
    if maxR ≤ acc.length then acc
    else if !f.isFile then docgrepLoop search maxR allowed rest acc
    else if !allowed (pyLower f.ext) then docgrepLoop search maxR allowed rest acc
    else if isHidden f then docgrepLoop search maxR allowed rest acc
    else
      match f.content with
      | Except.error e => docgrepLoop search maxR allowed rest (acc ++ [relOf f ++ ":error:" ++ e])
      | Except.ok sections =>
        docgrepLoop search maxR allowed rest (scanSections search maxR (relOf f) sections acc)

/-- `docgrep` (server.py 248-301) after argument validation. -/
def docgrep (search : String → Bool) (maxR : Nat) (allowed : String → Bool)
    (files : List FileEntry) : String :=
  let results := docgrepLoop search maxR allowed files []
  if results.isEmpty then "No matches found." else joinSep "\n" results

/-- 1-based enumeration, `enumerate(sections, i)`. -/
def indexFrom : Nat → List Section → List (Nat × Section)
  | _, [] => []
  | i, s :: rest => (i, s) :: indexFrom (i + 1) rest

/-- A scannable fixture file with one one-line section. -/
def okFile (name : String) : FileEntry :=
  ⟨[name], true, ".docx", Except.ok [("document", "hello")]⟩

/-- A fixture file whose extraction fails. -/
def badFile (name msg : String) : FileEntry :=
  ⟨[name], true, ".docx", Except.error msg⟩

/-- Ten fixture files in sorted order, the fifth corrupt. -/
def tenFiles : List FileEntry :=
  [okFile "a.docx", okFile "b.docx", okFile "c.docx", okFile "d.docx",
   badFile "e.docx" "boom", okFile "f.docx", okFile "g.docx", okFile "h.docx",
   okFile "i.docx", okFile "j.docx"]

/-- Fixture sheet A with three rows. -/
def secA : Section := ("sheet " ++ sq ++ "A" ++ sq, "a1\na2\na3")

/-- Fixture sheet B with three rows. -/
def secB : Section := ("sheet " ++ sq ++ "B" ++ sq, "b1\nb2\nb3")

/-! ### Helper lemmas: the docgrep walk -/

theorem scanLines_stop {maxR : Nat} {acc : List String} (h : maxR ≤ acc.length)
    (search : String → Bool) (rel label : String) (lines : List String) :
    scanLines search maxR rel label lines acc = acc := by
  cases lines with
  | nil => rfl
  | cons l rest => simp only [scanLines]; rw [if_pos h]

theorem scanSections_stop {maxR : Nat} {acc : List String} (h : maxR ≤ acc.length)
    (search : String → Bool) (rel : String) (secs : List Section) :
    scanSections search maxR rel secs acc = acc := by
  cases secs with
  | nil => rfl
  | cons s rest =>
    obtain ⟨label, text⟩ := s
    simp only [scanSections]; rw [if_pos h]

theorem docgrepLoop_stop {maxR : Nat} {acc : List String} (h : maxR ≤ acc.length)
    (search : String → Bool) (allowed : String → Bool) (files : List FileEntry) :
    docgrepLoop search maxR allowed files acc = acc := by
  cases files with
  | nil => rfl
  | cons f rest => simp only [docgrepLoop]; rw [if_pos h]

theorem scanLines_le (search : String → Bool) (maxR : Nat) (rel label : String) :
    ∀ (lines acc : List String), acc.length ≤ maxR →
      (scanLines search maxR rel label lines acc).length ≤ maxR := by
  intro lines
  induction lines with
  | nil => intro acc h; exact h
  | cons l rest ih =>
    intro acc h
    simp only [scanLines]
    by_cases hm : maxR ≤ acc.length
    · rw [if_pos hm]; exact h
    · rw [if_neg hm]
      by_cases hs : search l
      · rw [if_pos hs]
        exact ih _ (by simp only [List.length_append, List.length_cons, List.length_nil]; omega)
      · rw [if_neg hs]; exact ih _ h

theorem scanSections_le (search : String → Bool) (maxR : Nat) (rel : String) :
    ∀ (secs : List Section) (acc : List String), acc.length ≤ maxR →
      (scanSections search maxR rel secs acc).length ≤ maxR := by
  intro secs
  induction secs with
  | nil => intro acc h; exact h
  | cons s rest ih =>
    intro acc h
    obtain ⟨label, text⟩ := s
    simp only [scanSections]
    by_cases hm : maxR ≤ acc.length
    · rw [if_pos hm]; exact h
    · rw [if_neg hm]
      exact ih _ (scanLines_le search maxR rel label (pySplitLines text) acc h)

theorem docgrepLoop_le (search : String → Bool) (maxR : Nat) (allowed : String → Bool) :
    ∀ (files : List FileEntry) (acc : List String), acc.length ≤ maxR →
      (docgrepLoop search maxR allowed files acc).length ≤ maxR := by
  intro files
  induction files with
  | nil => intro acc h; exact h
  | cons f rest ih =>
    intro acc h
    simp only [docgrepLoop]
    by_cases hm : maxR ≤ acc.length
    · rw [if_pos hm]; exact h
    · rw [if_neg hm]
      by_cases h1 : (!f.isFile) = true
      · rw [if_pos h1]; exact ih _ h
      · rw [if_neg h1]
        by_cases h2 : (!allowed (pyLower f.ext)) = true
        · rw [if_pos h2]; exact ih _ h
        · rw [if_neg h2]
          by_cases h3 : isHidden f = true
          · rw [if_pos h3]; exact ih _ h
          · rw [if_neg h3]
            cases hc : f.content with
            | error e =>
              exact ih _ (by simp only [List.length_append, List.length_cons,
                List.length_nil]; omega)
            | ok sections =>
              exact ih _ (scanSections_le search maxR (relOf f) sections acc h)

theorem docgrepLoop_append (search : String → Bool) (maxR : Nat) (allowed : String → Bool) :
    ∀ (fs gs : List FileEntry) (acc : List String),
      docgrepLoop search maxR allowed (fs ++ gs) acc =
        docgrepLoop search maxR allowed gs (docgrepLoop search maxR allowed fs acc) := by
  intro fs
  induction fs with
  | nil => intro gs acc; rfl
  | cons f rest ih =>
    intro gs acc
    by_cases hm : maxR ≤ acc.length
    · rw [docgrepLoop_stop hm, docgrepLoop_stop hm, docgrepLoop_stop hm]
    · simp only [List.cons_append, docgrepLoop]
      rw [if_neg hm, if_neg hm]
      by_cases h1 : (!f.isFile) = true
      · rw [if_pos h1, if_pos h1]; exact ih gs acc
      · rw [if_neg h1, if_neg h1]
        by_cases h2 : (!allowed (pyLower f.ext)) = true
        · rw [if_pos h2, if_pos h2]; exact ih gs acc
        · rw [if_neg h2, if_neg h2]
          by_cases h3 : isHidden f = true
          · rw [if_pos h3, if_pos h3]; exact ih gs acc
          · rw [if_neg h3, if_neg h3]
            cases hc : f.content with
            | error e => exact ih gs _
            | ok sections => exact ih gs _

theorem docgrepLoop_filter_hidden (search : String → Bool) (maxR : Nat)
    (allowed : String → Bool) :
    ∀ (files : List FileEntry) (acc : List String),
      docgrepLoop search maxR allowed files acc =
        docgrepLoop search maxR allowed (files.filter (fun f => !isHidden f)) acc := by
  intro files
  induction files with
  | nil => intro acc; rfl
  | cons f rest ih =>
    intro acc
    by_cases hh : isHidden f = true
    · rw [List.filter_cons_of_neg (by simp [hh])]
      by_cases hm : maxR ≤ acc.length
      · rw [docgrepLoop_stop hm, docgrepLoop_stop hm]
      · simp only [docgrepLoop]
        rw [if_neg hm]
        by_cases h1 : (!f.isFile) = true
        · rw [if_pos h1]; exact ih acc
        · rw [if_neg h1]
          by_cases h2 : (!allowed (pyLower f.ext)) = true
          · rw [if_pos h2]; exact ih acc
          · rw [if_neg h2]; rw [if_pos hh]; exact ih acc
    · rw [List.filter_cons_of_pos (by simp [hh])]
      by_cases hm : maxR ≤ acc.length
      · rw [docgrepLoop_stop hm, docgrepLoop_stop hm]
      · simp only [docgrepLoop]
        rw [if_neg hm, if_neg hm]
        by_cases h1 : (!f.isFile) = true
        · rw [if_pos h1, if_pos h1]; exact ih acc
        · rw [if_neg h1, if_neg h1]
          by_cases h2 : (!allowed (pyLower f.ext)) = true
          · rw [if_pos h2, if_pos h2]; exact ih acc
          · rw [if_neg h2, if_neg h2]
            rw [if_neg hh, if_neg hh]
            cases hc : f.content with
            | error e => exact ih _
            | ok sections => exact ih _

/-! ### Helper lemmas: character slicing -/

theorem strTake_length (s : String) (n : Nat) : (strTake s n).length = min n s.length := by
  show (s.toList.take n).length = min n s.length
  rw [List.length_take]
  rfl

theorem strTake_append_drop (s : String) (n : Nat) :
    strTake s n ++ strDrop s n = s := by
  show String.mk (s.toList.take n) ++ String.mk (s.toList.drop n) = s
  have h : String.mk (s.toList.take n) ++ String.mk (s.toList.drop n)
      = String.mk (s.toList.take n ++ s.toList.drop n) := rfl
  rw [h, List.take_append_drop]
  rfl

/-! ### Claims C1, C3, C7: the docgrep walk -/

/-- C1: for every matcher, allow-list, file list and `max_results`,
`docgrep` accumulates at most `max_results` result lines (match and error
lines together); each loop level (file, section, line) returns its
accumulator unchanged the moment the count has reached the cap; and once
the accumulated count has reached the cap, extending the walk with further
files changes nothing — no further file is processed. -/
theorem docgrep_max_results_cap (search : String → Bool) (maxR : Nat)
    (allowed : String → Bool) (files : List FileEntry) :
    (docgrepLoop search maxR allowed files []).length ≤ maxR
    ∧ (∀ (rel label : String) (lines : List String) (secs : List Section)
        (gs : List FileEntry) (acc : List String), maxR ≤ acc.length →
        scanLines search maxR rel label lines acc = acc
        ∧ scanSections search maxR rel secs acc = acc
        ∧ docgrepLoop search maxR allowed gs acc = acc)
    ∧ (∀ gs : List FileEntry, maxR ≤ (docgrepLoop search maxR allowed files []).length →
        docgrepLoop search maxR allowed (files ++ gs) [] =
          docgrepLoop search maxR allowed files []) := by
  refine ⟨docgrepLoop_le search maxR allowed files [] (Nat.zero_le maxR), ?_, ?_⟩
  · intro rel label lines secs gs acc h
    exact ⟨scanLines_stop h search rel label lines, scanSections_stop h search rel secs,
      docgrepLoop_stop h search allowed gs⟩
  · intro gs h
    rw [docgrepLoop_append, docgrepLoop_stop h]

/-- Witness for C1 at concrete inputs: with `max_results = 1` a one-match
file fills the cap, a saturated accumulator stops the line loop, and
appending a second file to the walk changes nothing. -/
theorem docgrep_max_results_cap_witness :
    scanLines (fun _ => true) 1 "a.docx" "document" ["hello"] ["x"] = ["x"]
    ∧ docgrepLoop (fun _ => true) 1 (fun _ => true) ([okFile "a.docx"] ++ [okFile "b.docx"]) []
        = docgrepLoop (fun _ => true) 1 (fun _ => true) [okFile "a.docx"] [] :=
  ⟨((docgrep_max_results_cap (fun _ => true) 1 (fun _ => true) []).2.1
      "a.docx" "document" ["hello"] [] [] ["x"] (by decide)).1,
   (docgrep_max_results_cap (fun _ => true) 1 (fun _ => true) [okFile "a.docx"]).2.2
      [okFile "b.docx"] (by decide)⟩

/-- C3: an extraction failure is recovered per file: when the cap is not
yet reached and a file passes the is-file/extension/hidden checks but its
extraction fails, the walk appends exactly one error line
`relative_path:error:message` and continues with the remaining files; on
the ten-file fixture (fifth file corrupt) the walk yields the nine match
lines plus the single error line, in path order. -/
theorem docgrep_error_isolation (search : String → Bool) (maxR : Nat)
    (allowed : String → Bool) (f : FileEntry) (rest : List FileEntry)
    (acc : List String) (e : String) :
    (acc.length < maxR → f.isFile = true → allowed (pyLower f.ext) = true →
      isHidden f = false → f.content = Except.error e →
      docgrepLoop search maxR allowed (f :: rest) acc =
        docgrepLoop search maxR allowed rest (acc ++ [relOf f ++ ":error:" ++ e]))
    ∧ docgrepLoop (fun _ => true) 100 (fun _ => true) tenFiles []
        = ["a.docx:document:hello", "b.docx:document:hello", "c.docx:document:hello",
           "d.docx:document:hello", "e.docx:error:boom", "f.docx:document:hello",
           "g.docx:document:hello", "h.docx:document:hello", "i.docx:document:hello",
           "j.docx:document:hello"] := by
  constructor
  · intro hlt hfile hext hhid hcont
    simp only [docgrepLoop]
    rw [if_neg (by omega), if_neg (by simp [hfile]), if_neg (by simp [hext]),
      if_neg (by simp [hhid]), hcont]
  · decide

/-- Witness for C3: the step equation at a concrete corrupt file with a
non-saturated accumulator. -/
theorem docgrep_error_isolation_witness :
    docgrepLoop (fun _ => true) 5 (fun _ => true) [badFile "e.docx" "boom", okFile "f.docx"] []
      = docgrepLoop (fun _ => true) 5 (fun _ => true) [okFile "f.docx"] ["e.docx:error:boom"] :=
  (docgrep_error_isolation (fun _ => true) 5 (fun _ => true) (badFile "e.docx" "boom")
    [okFile "f.docx"] [] "boom").1 (by decide) (by decide) (by decide) (by decide) rfl

/-- C7: hidden entries (a path component starting with `.`) are never
visited: the walk computes the same results as the walk over the file list
with every hidden entry removed, and over a list of hidden entries only,
`docgrep` returns the no-match sentinel even when their contents match. -/
theorem docgrep_hidden_never_visited (search : String → Bool) (maxR : Nat)
    (allowed : String → Bool) (files : List FileEntry) (acc : List String) :
    docgrepLoop search maxR allowed files acc =
      docgrepLoop search maxR allowed (files.filter (fun f => !isHidden f)) acc
    ∧ (files.all isHidden = true → docgrep search maxR allowed files = "No matches found.") := by
  constructor
  · exact docgrepLoop_filter_hidden search maxR allowed files acc
  · intro hall
    have hfilter : files.filter (fun f => !isHidden f) = [] := by
      rw [List.filter_eq_nil_iff]
      intro f hf
      have hh := List.all_eq_true.mp hall f hf
      simp [hh]
    unfold docgrep
    rw [docgrepLoop_filter_hidden, hfilter]
    rfl

/-- Witness for C7: a hidden file with matching content yields the
sentinel. -/
theorem docgrep_hidden_never_visited_witness :
    docgrep (fun _ => true) 100 (fun _ => true)
      [⟨[".secret", "a.docx"], true, ".docx", Except.ok [("document", "hello")]⟩]
      = "No matches found." :=
  (docgrep_hidden_never_visited (fun _ => true) 100 (fun _ => true)
    [⟨[".secret", "a.docx"], true, ".docx", Except.ok [("document", "hello")]⟩] []).2 (by decide)

/-! ### Helper lemmas: sorted lists, set insertion, min/max -/

theorem sorted_lt_eq {l₁ l₂ : List Int} (h₁ : l₁.Sorted (· < ·)) (h₂ : l₂.Sorted (· < ·))
    (hm : ∀ a, a ∈ l₁ ↔ a ∈ l₂) : l₁ = l₂ := by
  have nd₁ : l₁.Nodup := h₁.imp ne_of_lt
  have nd₂ : l₂.Nodup := h₂.imp ne_of_lt
  have hp : List.Perm l₁ l₂ := (List.perm_ext_iff_of_nodup nd₁ nd₂).mpr hm
  exact List.eq_of_perm_of_sorted hp (h₁.imp le_of_lt) (h₂.imp le_of_lt)

theorem insortI_perm (x : Int) : ∀ l : List Int, List.Perm (insortI x l) (x :: l) := by
  intro l
  induction l with
  | nil => exact List.Perm.refl [x]
  | cons y ys ih =>
    simp only [insortI]
    by_cases h : x ≤ y
    · rw [if_pos h]
    · rw [if_neg h]
      exact (ih.cons y).trans (List.Perm.swap x y ys)

theorem sortInts_perm : ∀ l : List Int, List.Perm (sortInts l) l := by
  intro l
  induction l with
  | nil => exact List.Perm.refl []
  | cons x xs ih =>
    exact (insortI_perm x (sortInts xs)).trans (ih.cons x)

theorem insortI_sorted (x : Int) :
    ∀ l : List Int, l.Sorted (· ≤ ·) → (insortI x l).Sorted (· ≤ ·) := by
  intro l
  induction l with
  | nil => intro _; simp [insortI]
  | cons y ys ih =>
    intro hs
    rw [List.sorted_cons] at hs
    obtain ⟨hy, hys⟩ := hs
    simp only [insortI]
    by_cases h : x ≤ y
    · rw [if_pos h, List.sorted_cons]
      refine ⟨?_, ?_⟩
      · intro b hb
        rcases List.mem_cons.mp hb with rfl | hb
        · exact h
        · exact h.trans (hy b hb)
      · rw [List.sorted_cons]
        exact ⟨hy, hys⟩
    · rw [if_neg h, List.sorted_cons]
      refine ⟨?_, ih hys⟩
      intro b hb
      rcases List.mem_cons.mp ((insortI_perm x ys).mem_iff.mp hb) with rfl | hb
      · omega
      · exact hy b hb

theorem sortInts_sorted : ∀ l : List Int, (sortInts l).Sorted (· ≤ ·) := by
  intro l
  induction l with
  | nil => simp [sortInts]
  | cons x xs ih => exact insortI_sorted x (sortInts xs) ih

theorem sortInts_sorted_lt {l : List Int} (h : l.Nodup) : (sortInts l).Sorted (· < ·) := by
  have hn : (sortInts l).Nodup := (sortInts_perm l).nodup_iff.mpr h
  exact ((sortInts_sorted l).and hn).imp (fun hab => lt_of_le_of_ne hab.1 hab.2)

theorem setMin?_spec {s : List Int} {m : Int} (h : setMin? s = some m) :
    m ∈ s ∧ ∀ x ∈ s, m ≤ x := by
  unfold setMin? at h
  cases hs : sortInts s with
  | nil => rw [hs] at h; exact absurd h (by simp)
  | cons a rest =>
    rw [hs] at h
    have ha : a = m := by simpa using h
    subst ha
    have hsort := sortInts_sorted s
    rw [hs, List.sorted_cons] at hsort
    constructor
    · exact (sortInts_perm s).mem_iff.mp (by rw [hs]; exact List.mem_cons_self a rest)
    · intro x hx
      have hx2 : x ∈ sortInts s := (sortInts_perm s).mem_iff.mpr hx
      rw [hs] at hx2
      rcases List.mem_cons.mp hx2 with rfl | hmem
      · exact le_rfl
      · exact hsort.1 x hmem

theorem sorted_getLast?_spec :
    ∀ (l : List Int), l.Sorted (· ≤ ·) → ∀ M, l.getLast? = some M → M ∈ l ∧ ∀ x ∈ l, x ≤ M := by
  intro l
  induction l with
  | nil => intro _ M h; exact absurd h (by simp)
  | cons a rest ih =>
    intro hs M h
    cases rest with
    | nil =>
      have : a = M := by simpa using h
      subst this
      refine ⟨List.mem_singleton_self a, ?_⟩
      intro x hx
      rcases List.mem_singleton.mp hx with rfl
      exact le_rfl
    | cons b rest2 =>
      rw [List.getLast?_cons_cons] at h
      rw [List.sorted_cons] at hs
      obtain ⟨ha, hs2⟩ := hs
      obtain ⟨hM, hall⟩ := ih hs2 M h
      refine ⟨List.mem_cons_of_mem a hM, ?_⟩
      intro x hx
      rcases List.mem_cons.mp hx with rfl | hx2
      · exact ha M hM
      · exact hall x hx2

theorem setMax?_spec {s : List Int} {M : Int} (h : setMax? s = some M) :
    M ∈ s ∧ ∀ x ∈ s, x ≤ M := by
  unfold setMax? at h
  obtain ⟨hM, hall⟩ := sorted_getLast?_spec (sortInts s) (sortInts_sorted s) M h
  exact ⟨(sortInts_perm s).mem_iff.mp hM,
    fun x hx => hall x ((sortInts_perm s).mem_iff.mpr hx)⟩

theorem mem_sinsert (a x : Int) : ∀ l : List Int, a ∈ sinsert x l ↔ a = x ∨ a ∈ l := by
  intro l
  induction l with
  | nil => simp [sinsert]
  | cons y ys ih =>
    simp only [sinsert]
    by_cases h1 : x < y
    · rw [if_pos h1]
      simp [List.mem_cons]
    · rw [if_neg h1]
      by_cases h2 : x = y
      · rw [if_pos h2]
        subst h2
        simp only [List.mem_cons]
        tauto
      · rw [if_neg h2]
        simp only [List.mem_cons, ih]
        tauto

theorem sinsert_sorted_lt (x : Int) :
    ∀ l : List Int, l.Sorted (· < ·) → (sinsert x l).Sorted (· < ·) := by
  intro l
  induction l with
  | nil => intro _; simp [sinsert]
  | cons y ys ih =>
    intro hs
    rw [List.sorted_cons] at hs
    obtain ⟨hy, hys⟩ := hs
    simp only [sinsert]
    by_cases h1 : x < y
    · rw [if_pos h1, List.sorted_cons]
      refine ⟨?_, ?_⟩
      · intro b hb
        rcases List.mem_cons.mp hb with rfl | hb2
        · exact h1
        · exact h1.trans (hy b hb2)
      · rw [List.sorted_cons]
        exact ⟨hy, hys⟩
    · rw [if_neg h1]
      by_cases h2 : x = y
      · rw [if_pos h2, List.sorted_cons]
        exact ⟨hy, hys⟩
      · rw [if_neg h2, List.sorted_cons]
        refine ⟨?_, ih hys⟩
        intro b hb
        rcases (mem_sinsert b x ys).mp hb with rfl | hb2
        · omega
        · exact hy b hb2

theorem mem_sunion (a : Int) :
    ∀ (adds base : List Int), a ∈ sunion base adds ↔ a ∈ base ∨ a ∈ adds := by
  intro adds
  induction adds with
  | nil => intro base; simp [sunion]
  | cons x xs ih =>
    intro base
    show a ∈ sunion (sinsert x base) xs ↔ _
    rw [ih (sinsert x base), mem_sinsert]
    simp only [List.mem_cons]
    tauto

theorem sunion_sorted_lt :
    ∀ (adds base : List Int), base.Sorted (· < ·) → (sunion base adds).Sorted (· < ·) := by
  intro adds
  induction adds with
  | nil => intro base h; exact h
  | cons x xs ih =>
    intro base h
    exact ih (sinsert x base) (sinsert_sorted_lt x base h)

theorem sunion_right_comm {s : List Int} (hs : s.Sorted (· < ·)) (a b : List Int) :
    sunion (sunion s a) b = sunion (sunion s b) a := by
  apply sorted_lt_eq
  · exact sunion_sorted_lt b _ (sunion_sorted_lt a s hs)
  · exact sunion_sorted_lt a _ (sunion_sorted_lt b s hs)
  · intro t
    rw [mem_sunion, mem_sunion, mem_sunion, mem_sunion]
    tauto

/-! ### Helper lemmas: parse_numeric_range as token-set unions -/

theorem parseStep_eq_token (nums : List Int) (p : String) :
    parseStep (some nums) p = (tokenSet? p).map (fun c => sunion nums c) := by
  simp only [parseStep, tokenSet?]
  by_cases h : '-' ∈ (pyStrip p).toList
  · rw [if_pos h, if_pos h]
    rcases pyInt? (beforeChar (pyStrip p) '-') with _ | a <;>
      rcases pyInt? (afterChar (pyStrip p) '-') with _ | b <;> rfl
  · rw [if_neg h, if_neg h]
    rcases pyInt? (pyStrip p) with _ | n
    · rfl
    · rfl

theorem parseStep_sorted {nums : List Int} (h : nums.Sorted (· < ·)) (p : String) :
    ∀ res, parseStep (some nums) p = some res → res.Sorted (· < ·) := by
  intro res hres
  rw [parseStep_eq_token] at hres
  cases ht : tokenSet? p with
  | none => rw [ht] at hres; exact absurd hres (by simp)
  | some c =>
    rw [ht] at hres
    have : sunion nums c = res := by simpa using hres
    rw [← this]
    exact sunion_sorted_lt c nums h

theorem parseStep_comm {nums : List Int} (h : nums.Sorted (· < ·)) (p q : String) :
    parseStep (parseStep (some nums) p) q = parseStep (parseStep (some nums) q) p := by
  rw [parseStep_eq_token nums p, parseStep_eq_token nums q]
  cases hp : tokenSet? p with
  | none =>
    cases hq : tokenSet? q with
    | none => rfl
    | some cq =>
      show parseStep none q = parseStep (some (sunion nums cq)) p
      rw [parseStep_eq_token, hp]
      rfl
  | some cp =>
    cases hq : tokenSet? q with
    | none =>
      show parseStep (some (sunion nums cp)) q = parseStep none p
      rw [parseStep_eq_token, hq]
      rfl
    | some cq =>
      show parseStep (some (sunion nums cp)) q = parseStep (some (sunion nums cq)) p
      rw [parseStep_eq_token, parseStep_eq_token, hp, hq]
      exact congrArg some (sunion_right_comm h cp cq)

theorem foldl_parseStep_none : ∀ l : List String, l.foldl parseStep none = none := by
  intro l
  induction l with
  | nil => rfl
  | cons x xs ih => exact ih

theorem foldl_parseStep_perm {l₁ l₂ : List String} (hperm : List.Perm l₁ l₂) :
    ∀ (nums : List Int), nums.Sorted (· < ·) →
      l₁.foldl parseStep (some nums) = l₂.foldl parseStep (some nums) := by
  induction hperm with
  | nil => intro nums _; rfl
  | cons x hperm ih =>
    intro nums h
    simp only [List.foldl_cons]
    cases hx : parseStep (some nums) x with
    | none => rw [foldl_parseStep_none, foldl_parseStep_none]
    | some res => exact ih res (parseStep_sorted h x res hx)
  | swap x y l =>
    intro nums h
    simp only [List.foldl_cons]
    rw [parseStep_comm h]
  | trans h1 h2 ih1 ih2 =>
    intro nums h
    exact (ih1 nums h).trans (ih2 nums h)

/-! ### Helper lemmas: line selection and the line-addressed filter -/

theorem selectLines_eq {rset : List Int} (hnd : rset.Nodup) (lines : List String) :
    selectLines rset lines
      = ((List.range lines.length).filter (fun (i : Nat) => decide (((i : Int) + 1) ∈ rset))).map
          (fun i => lines.getD i "") := by
  unfold selectLines
  have key : (sortInts rset).filter (fun j => decide (1 ≤ j ∧ j ≤ (lines.length : Int)))
      = ((List.range lines.length).filter (fun (i : Nat) => decide (((i : Int) + 1) ∈ rset))).map
          (fun (i : Nat) => (i : Int) + 1) := by
    apply sorted_lt_eq
    · exact List.Pairwise.sublist (List.filter_sublist _) (sortInts_sorted_lt hnd)
    · have h1 : (List.range lines.length).Pairwise (· < ·) := List.pairwise_lt_range _
      have h2 : ((List.range lines.length).filter
          (fun (i : Nat) => decide (((i : Int) + 1) ∈ rset))).Pairwise (· < ·) :=
        List.Pairwise.sublist (List.filter_sublist _) h1
      exact List.pairwise_map.mpr (h2.imp (fun hab => by omega))
    · intro a
      constructor
      · intro ha
        rw [List.mem_filter] at ha
        obtain ⟨hmem, hcond⟩ := ha
        have hmem2 : a ∈ rset := (sortInts_perm rset).mem_iff.mp hmem
        have hcond2 : 1 ≤ a ∧ a ≤ (lines.length : Int) := of_decide_eq_true hcond
        rw [List.mem_map]
        refine ⟨(a - 1).toNat, ?_, by omega⟩
        rw [List.mem_filter, List.mem_range]
        refine ⟨by omega, ?_⟩
        rw [decide_eq_true_iff]
        have hval : (((a - 1).toNat : Int) + 1) = a := by omega
        rw [hval]
        exact hmem2
      · intro ha
        rw [List.mem_map] at ha
        obtain ⟨i, hi, rfl⟩ := ha
        rw [List.mem_filter, List.mem_range] at hi
        obtain ⟨hin, hcond⟩ := hi
        rw [List.mem_filter]
        refine ⟨(sortInts_perm rset).mem_iff.mpr (of_decide_eq_true hcond), ?_⟩
        rw [decide_eq_true_iff]
        omega
  rw [key, List.map_map]
  apply List.map_congr_left
  intro i _
  show lines.getD (((i : Int) + 1) - 1).toNat "" = lines.getD i ""
  have : (((i : Int) + 1) - 1).toNat = i := by omega
  rw [this]

theorem lineFilterLoop_spec {rset : List Int} {lo hi : Int}
    (hmin : setMin? rset = some lo) (hmax : setMax? rset = some hi) :
    ∀ (secs acc : List Section),
      lineFilterLoop rset secs acc = some (acc ++ secs.filterMap (fun sec =>
        if (selectLines rset (pySplit sec.2 '\n')).isEmpty then none
        else some (lineLabel sec.1 lo hi,
          joinSep "\n" (selectLines rset (pySplit sec.2 '\n'))))) := by
  intro secs
  induction secs with
  | nil => intro acc; simp [lineFilterLoop]
  | cons s rest ih =>
    intro acc
    obtain ⟨label, text⟩ := s
    simp only [lineFilterLoop]
    by_cases hsel : (selectLines rset (pySplit text '\n')).isEmpty = true
    · rw [if_pos hsel, ih, List.filterMap_cons]
      simp only [hsel, if_true]
    · rw [if_neg hsel, hmin, hmax]
      show lineFilterLoop rset rest
          (acc ++ [(lineLabel label lo hi, joinSep "\n" (selectLines rset (pySplit text '\n')))])
        = _
      rw [ih, List.filterMap_cons]
      simp only [hsel, Bool.false_eq_true, if_false]
      rw [List.append_assoc]
      rfl

/-! ### Helper lemmas: the sheet-addressed filter and label numbers -/

theorem sheetFilterLoop_none_spec (names : List String) (idxs : List Int) :
    ∀ (secs : List Section) (i : Nat) (acc : List Section),
      sheetFilterLoop ⟨names, idxs, none⟩ i secs acc
        = some (acc ++ (indexFrom i secs).filterMap (fun p =>
            if (p.1 : Int) ∈ idxs ∨ stripSheetName p.2.1 ∈ names then some p.2 else none)) := by
  intro secs
  induction secs with
  | nil => intro i acc; simp [sheetFilterLoop, indexFrom]
  | cons s rest ih =>
    intro i acc
    obtain ⟨label, text⟩ := s
    simp only [sheetFilterLoop, indexFrom]
    by_cases hsel : (i : Int) ∈ idxs ∨ stripSheetName label ∈ names
    · rw [if_pos hsel, ih, List.filterMap_cons]
      rw [if_pos hsel]
      rw [List.append_assoc]
      rfl
    · rw [if_neg hsel, ih, List.filterMap_cons]
      rw [if_neg hsel]

theorem getLast?_mem_of_eq : ∀ (l : List Char) (a : Char), l.getLast? = some a → a ∈ l := by
  intro l
  induction l with
  | nil => intro a h; exact absurd h (by simp)
  | cons x xs ih =>
    intro a h
    cases xs with
    | nil =>
      have : x = a := by simpa using h
      subst this
      exact List.mem_singleton_self x
    | cons y ys =>
      rw [List.getLast?_cons_cons] at h
      exact List.mem_cons_of_mem x (ih a h)

theorem extract_eq_trailing {label : String} (h : '\n' ∉ label.toList) :
    extract_section_number label = trailingNumber label := by
  have h1 : label.toList.getLast? ≠ some '\n' := fun hc => h (getLast?_mem_of_eq _ _ hc)
  simp only [extract_section_number, trailingNumber]
  rw [if_neg h1, if_neg h]

/-! ### Claim C2: the docread output cap -/

/-- C2: for every `docread` invocation whose range filter succeeds with a
nonempty section list, the returned string is the rendered output passed
through `capOutput`; `capOutput` returns a string of at most 40000
characters unmodified, and truncates a longer string to exactly its first
40000 characters (a prefix of length 40000) with the fixed notice — naming
the cap and suggesting `range` — appended. -/
theorem docread_output_cap (sections : List Section) (r ext : String)
    (w : Option String) (fsecs : List Section) :
    (r ≠ "" → filter_sections sections r ext = some (w, fsecs) → fsecs ≠ [] →
      docread sections (some r) ext = some (capOutput (renderSections w fsecs)))
    ∧ (∀ s : String, s.length ≤ MAX_OUTPUT_CHARS → capOutput s = s)
    ∧ (∀ s : String, MAX_OUTPUT_CHARS < s.length →
        capOutput s = strTake s MAX_OUTPUT_CHARS ++ truncNotice
        ∧ (strTake s MAX_OUTPUT_CHARS).length = MAX_OUTPUT_CHARS
        ∧ strTake s MAX_OUTPUT_CHARS ++ strDrop s MAX_OUTPUT_CHARS = s) := by
  refine ⟨?_, ?_, ?_⟩
  · intro hr hf hne
    have hempty : fsecs.isEmpty = false := by
      cases fsecs with
      | nil => exact absurd rfl hne
      | cons a l => rfl
    simp only [docread, if_neg hr, hf, hempty, Bool.false_eq_true, if_false]
  · intro s h
    unfold capOutput
    rw [if_neg (by omega)]
  · intro s h
    refine ⟨?_, ?_, strTake_append_drop s MAX_OUTPUT_CHARS⟩
    · unfold capOutput
      rw [if_pos h]
    · rw [strTake_length]
      unfold MAX_OUTPUT_CHARS at h ⊢
      omega

/-- Witness for C2 at a concrete read: a two-line document filtered to
line 1. -/
theorem docread_output_cap_witness :
    docread [("document", "a\nb")] (some "1") ".docx"
      = some (capOutput (renderSections none [("document lines 1-1", "a")])) :=
  (docread_output_cap [("document", "a\nb")] "1" ".docx" none
    [("document lines 1-1", "a")]).1 (by decide) (by decide) (by decide)

/-! ### Claim C4: the line-addressed filter -/

/-- C4: line-addressed filtering selects exactly the lines whose 1-based
index lies in the parsed range, in ascending line order (the selection over
the sorted selector equals the ascending index filter); `setMin?`/`setMax?`
are the min and max of the requested range; the filter drops sections with
zero selected lines and relabels survivors `"{label} lines {lo}-{hi}"`
with those requested bounds; concretely, range `"2-4"` on a 5-line
single-section document yields exactly lines 2-4 relabelled
`"document lines 2-4"`, and range `"2-9"` on a 3-line document keeps the
requested bounds `2-9` in the label, not those of the matched subset. -/
theorem line_addressed_filter_spec (rset : List Int) (lines : List String)
    (secs : List Section) (lo hi : Int) :
    (rset.Nodup → selectLines rset lines
        = ((List.range lines.length).filter
            (fun (i : Nat) => decide (((i : Int) + 1) ∈ rset))).map (fun i => lines.getD i ""))
    ∧ (setMin? rset = some lo → lo ∈ rset ∧ ∀ x ∈ rset, lo ≤ x)
    ∧ (setMax? rset = some hi → hi ∈ rset ∧ ∀ x ∈ rset, x ≤ hi)
    ∧ (setMin? rset = some lo → setMax? rset = some hi →
        filterLineAddressed rset secs = some (secs.filterMap (fun sec =>
          if (selectLines rset (pySplit sec.2 '\n')).isEmpty then none
          else some (lineLabel sec.1 lo hi,
            joinSep "\n" (selectLines rset (pySplit sec.2 '\n'))))))
    ∧ filter_sections [("document", "L1\nL2\nL3\nL4\nL5")] "2-4" ".docx"
        = some (none, [("document lines 2-4", "L2\nL3\nL4")])
    ∧ filter_sections [("document", "L1\nL2\nL3")] "2-9" ".docx"
        = some (none, [("document lines 2-9", "L2\nL3")]) := by
  refine ⟨fun h => selectLines_eq h lines, setMin?_spec, setMax?_spec, ?_, by decide, by decide⟩
  intro h1 h2
  unfold filterLineAddressed
  rw [lineFilterLoop_spec h1 h2 secs []]
  rfl

/-- Witness for C4 at the concrete range `{2,3,4}` on the 5-line
document. -/
theorem line_addressed_filter_spec_witness :
    filterLineAddressed [2, 3, 4] [("document", "L1\nL2\nL3\nL4\nL5")]
      = some ([("document", "L1\nL2\nL3\nL4\nL5")].filterMap (fun sec =>
          if (selectLines [2, 3, 4] (pySplit sec.2 '\n')).isEmpty then none
          else some (lineLabel sec.1 2 4,
            joinSep "\n" (selectLines [2, 3, 4] (pySplit sec.2 '\n'))))) :=
  (line_addressed_filter_spec [2, 3, 4] [] [("document", "L1\nL2\nL3\nL4\nL5")] 2 4).2.2.2.1
    (by decide) (by decide)

/-! ### Claim C5: the sheet-addressed filter -/

/-- C5: in sheet-addressed filtering a section at 1-based position `i` is
selected iff `i` is in the parsed index set or its label with the
`sheet '...'` decoration stripped is in the parsed name set (stated for a
selector without a nested row range, which passes selected sheets through
unchanged); concretely on sheets A and B, range `"B"` selects only sheet B,
range `"1"` selects only sheet A, and range `"B:1-2"` selects sheet B
restricted to its first two rows. -/
theorem sheet_addressed_filter_spec (names : List String) (idxs : List Int)
    (secs : List Section) :
    filterSheetAddressed ⟨names, idxs, none⟩ secs
        = some ((indexFrom 1 secs).filterMap (fun p =>
            if (p.1 : Int) ∈ idxs ∨ stripSheetName p.2.1 ∈ names then some p.2 else none))
    ∧ filter_sections [secA, secB] "B" ".xlsx" = some (none, [secB])
    ∧ filter_sections [secA, secB] "1" ".xlsx" = some (none, [secA])
    ∧ filter_sections [secA, secB] "B:1-2" ".xlsx"
        = some (none, [("sheet " ++ sq ++ "B" ++ sq ++ " rows 1-2", "b1\nb2")]) := by
  refine ⟨?_, by decide, by decide, by decide⟩
  unfold filterSheetAddressed
  rw [sheetFilterLoop_none_spec]
  rfl

/-! ### Claim C8: the numbered-label filter -/

/-- C8: numbered-label filtering includes a section iff the trailing run
of digits at the end of its label, read as an integer, is in the parsed
set (stated for labels without a newline, the form every decoder
produces); a label with no trailing digits is always excluded (its section
number is `none`, never a member); no section is relabelled (the output is
a sublist filter of the input); concretely, on pages 1, 2 and 10, range
`"2,10"` selects exactly pages 2 and 10. -/
theorem numbered_label_filter_spec (idxs : List Int) (secs : List Section) :
    ((∀ s ∈ secs, '\n' ∉ s.1.toList) →
      filterNumbered idxs secs = secs.filter (fun s =>
        match trailingNumber s.1 with
        | some n => decide (n ∈ idxs)
        | none => false))
    ∧ (∀ s ∈ filterNumbered idxs secs, s ∈ secs)
    ∧ filter_sections [("page 1", "t1"), ("page 2", "t2"), ("page 10", "t10")] "2,10" ".pdf"
        = some (none, [("page 2", "t2"), ("page 10", "t10")]) := by
  refine ⟨?_, ?_, by decide⟩
  · intro hnl
    unfold filterNumbered
    apply List.filter_congr
    intro s hs
    rw [extract_eq_trailing (hnl s hs)]
  · intro s hs
    exact List.mem_of_mem_filter hs

/-- Witness for C8: the label characterization on the three concrete
pages. -/
theorem numbered_label_filter_spec_witness :
    filterNumbered [2, 10] [("page 1", "t1"), ("page 2", "t2"), ("page 10", "t10")]
      = [("page 1", "t1"), ("page 2", "t2"), ("page 10", "t10")].filter (fun s =>
          match trailingNumber s.1 with
          | some n => decide (n ∈ [(2 : Int), 10])
          | none => false) :=
  (numbered_label_filter_spec [2, 10]
    [("page 1", "t1"), ("page 2", "t2"), ("page 10", "t10")]).1 (by decide)

/-! ### Claim C9: order independence of parse_numeric_range -/

/-- C9: numeric range parsing is order-independent over comma-separated
tokens: `"3-5,8"` and `"8,3-5"` both parse to the set `{3,4,5,8}`, and in
general folding `parseStep` over any permutation of a token list from a
canonical accumulated set yields the same result — the parse is the union
of the tokens' contributions. -/
theorem parse_numeric_range_order_independent :
    parse_numeric_range "3-5,8" = some [3, 4, 5, 8]
    ∧ parse_numeric_range "8,3-5" = some [3, 4, 5, 8]
    ∧ ∀ (l₁ l₂ : List String) (nums : List Int), List.Perm l₁ l₂ → nums.Sorted (· < ·) →
        l₁.foldl parseStep (some nums) = l₂.foldl parseStep (some nums) :=
  ⟨by decide, by decide, fun _ _ nums hp hs => foldl_parseStep_perm hp nums hs⟩

/-- Witness for C9: the two token orders of the testable property, folded
from the empty set. -/
theorem parse_numeric_range_order_independent_witness :
    ["8", "3-5"].foldl parseStep (some []) = ["3-5", "8"].foldl parseStep (some []) :=
  parse_numeric_range_order_independent.2.2 ["8", "3-5"] ["3-5", "8"] []
    (List.Perm.swap "3-5" "8" []) (by simp)

/-! ### Claim C6 (corrected): reversed range bounds -/

/-- C6 counterexample: the claim says `"5-3"` parses to the same set as
`"3-5"` (min/max-normalized, non-empty); in fact `range(5, 3+1)` is empty,
so `"5-3"` parses to the empty set, different from `{3,4,5}`. -/
theorem reversed_range_counterexample :
    parse_numeric_range "5-3" = some []
    ∧ parse_numeric_range "5-3" ≠ parse_numeric_range "3-5"
    ∧ parse_numeric_range "3-5" = some [3, 4, 5] := by
  decide

/-- C6 amended: a range token `a-b` with `a > b` is not a parse error, but
it is not normalized either: its contribution `range(a, b+1)` is empty, so
the token adds nothing to the selection (a reversed token alone yields an
empty selection). -/
theorem reversed_range_empty_contribution (s : String) (nums : List Int) (a b : Int) :
    '-' ∈ (pyStrip s).toList →
    pyInt? (beforeChar (pyStrip s) '-') = some a →
    pyInt? (afterChar (pyStrip s) '-') = some b →
    b < a →
    parseStep (some nums) s = some nums := by
  intro hd ha hb hlt
  simp only [parseStep]
  rw [if_pos hd, ha, hb]
  have hrange : pyRange a (b + 1) = [] := by
    unfold pyRange
    have h0 : (b + 1 - a).toNat = 0 := by omega
    rw [h0]
    rfl
  show some (sunion nums (pyRange a (b + 1))) = some nums
  rw [hrange]
  rfl

/-- Witness for C6 amended: the reversed token `"5-3"` leaves the
accumulated set unchanged. -/
theorem reversed_range_empty_contribution_witness :
    parseStep (some [7]) "5-3" = some [7] :=
  reversed_range_empty_contribution "5-3" [7] 5 3 (by decide) (by decide) (by decide) (by decide)

/-! ### Claim C10: empty row selection still emits the sheet -/

/-- C10: with a nested non-empty row range, a selected sheet is emitted
even when none of the requested row indices exist in it — relabelled
`"{label} rows {lo}-{hi}"` with empty text — whereas the line-addressed
policy drops a section with zero selected lines on the same range. -/
theorem sheet_empty_rows_emitted (names : List String) (idxs : List Int) (rr : List Int)
    (lo hi : Int) (label text : String) :
    setMin? rr = some lo → setMax? rr = some hi →
    ((1 : Int) ∈ idxs ∨ stripSheetName label ∈ names) →
    (∀ j ∈ rr, ¬(1 ≤ j ∧ j ≤ ((pySplit text '\n').length : Int))) →
    filterSheetAddressed ⟨names, idxs, some rr⟩ [(label, text)]
        = some [(rowLabel label lo hi, "")]
    ∧ filterLineAddressed rr [(label, text)] = some [] := by
  intro hmin hmax hsel hout
  have hempty : selectLines rr (pySplit text '\n') = [] := by
    unfold selectLines
    have hnone : ∀ j ∈ sortInts rr,
        ¬((fun j => decide (1 ≤ j ∧ j ≤ ((pySplit text '\n').length : Int))) j = true) := by
      intro j hj
      simp only [decide_eq_true_iff]
      exact hout j ((sortInts_perm rr).mem_iff.mp hj)
    rw [List.filter_eq_nil_iff.mpr hnone]
    rfl
  constructor
  · unfold filterSheetAddressed
    simp only [sheetFilterLoop, Nat.cast_one]
    rw [if_pos hsel, hempty, hmin, hmax]
    rfl
  · unfold filterLineAddressed
    simp only [lineFilterLoop]
    rw [hempty]
    rfl

/-- Witness for C10: sheet A has one row, the requested rows are 5-6; the
sheet survives with empty text while the line-addressed filter drops the
section. -/
theorem sheet_empty_rows_emitted_witness :
    filterSheetAddressed ⟨["A"], [], some [5, 6]⟩ [("sheet " ++ sq ++ "A" ++ sq, "x")]
        = some [(rowLabel ("sheet " ++ sq ++ "A" ++ sq) 5 6, "")]
    ∧ filterLineAddressed [5, 6] [("sheet " ++ sq ++ "A" ++ sq, "x")] = some [] :=
  sheet_empty_rows_emitted ["A"] [] [5, 6] 5 6 ("sheet " ++ sq ++ "A" ++ sq) "x"
    (by decide) (by decide) (by decide) (by decide)

end DocSearch
